import Mathlib

/-!
Verification of the Weekly-Dashboard-Performance KPI engine.

The definitions below are shallow embeddings of the Go services of the
repository: the dashboard computation service (status classification,
percentage computation, week-over-week change, schedule variance,
aggregation, snapshot store accessor) and the sheets service (layout
discovery, layout cache, metric row resolver).  Go `float64` values are
modelled as `ℚ`; Go maps are modelled as functions or association lists
with the same lookup and insertion semantics.
-/

set_option maxHeartbeats 1000000

namespace Dashboard

/-- Status colour of a KPI, the string values produced by `calculateStatus`. -/
inductive Status where
  | supergreen
  | green
  | yellow
  | red
deriving DecidableEq, Repr

/-- Embeds `calculateStatus` of the dashboard service: normal metrics use the
strict thresholds `>100 / >85 / >55`, inverse metrics the inclusive thresholds
`>=100 / >=85 / >=55` with the colour order flipped. -/
def calculateStatus (percentage : ℚ) (isInverse : Bool) : Status :=
  if isInverse then
    if percentage ≥ 100 then .red
    else if percentage ≥ 85 then .yellow
    else if percentage ≥ 55 then .green
    else .supergreen
  else
    if percentage > 100 then .supergreen
    else if percentage > 85 then .green
    else if percentage > 55 then .yellow
    else .red

/-- Embeds the percentage computation inlined in `GetDashboardData`:
`target == 0` gives `0`, otherwise `performance / target * 100`, and the
result is capped at `999` afterwards. -/
def calculatedPercentage (target performance : ℚ) : ℚ :=
  let p : ℚ := if target ≠ 0 then performance / target * 100 else 0
  if p > 999 then 999 else p

/-- Schedule status strings produced by `calculateVariance`. -/
inductive Sched where
  | ahead
  | on_schedule
  | behind
deriving DecidableEq, Repr

/-- Go's leap-year rule as applied by the `time` package: divisible by 4 and
not by 100, or divisible by 400. -/
def isLeapYear (year : ℤ) : Bool :=
  year % 4 = 0 && (year % 100 ≠ 0 || year % 400 = 0)

/-- Embeds `daysInMonth` of the dashboard service (the `time.Date` day-0
trick), written out as the month-length table it produces for months 1–12. -/
def daysInMonth (month : ℕ) (year : ℤ) : ℕ :=
  if month = 2 then (if isLeapYear year then 29 else 28)
  else if month = 4 ∨ month = 6 ∨ month = 9 ∨ month = 11 then 30
  else 31

/-- Go `math.Round`: round to the nearest integer, ties away from zero. -/
def goRound (x : ℚ) : ℚ :=
  if x < 0 then -((⌊-x + 1/2⌋ : ℤ) : ℚ) else ((⌊x + 1/2⌋ : ℤ) : ℚ)

/-- `math.Round(x*10)/10`: round to one decimal place. -/
def round1 (x : ℚ) : ℚ := goRound (x * 10) / 10

/-- `math.Round(x*100)/100`: round to two decimal places. -/
def round2 (x : ℚ) : ℚ := goRound (x * 100) / 100

/-- Embeds `calculateVariance` of the dashboard service.  The Go function
reads the day of month from the wall clock (`time.Now().Day()`); here that
input is the explicit parameter `currentDay`.  Returns
`(expectedProgress, variance, scheduleStatus)`. -/
def calculateVariance (target actual : ℚ) (isInverse : Bool) (month : ℕ) (year : ℤ)
    (currentDay : ℕ) : ℚ × ℚ × Sched :=
  if target = 0 then (0, 0, .on_schedule)
  else
    let totalDays := daysInMonth month year
    let progressRatio : ℚ := (currentDay : ℚ) / (totalDays : ℚ)
    let expectedProgress := target * progressRatio
    if expectedProgress = 0 then (expectedProgress, 0, .on_schedule)
    else
      let variance0 : ℚ :=
        if isInverse then (expectedProgress - actual) / expectedProgress * 100
        else (actual - expectedProgress) / expectedProgress * 100
      let variance := round1 variance0
      let ep := round2 expectedProgress
      (ep, variance,
        if variance > 5 then .ahead
        else if variance < -5 then .behind
        else .on_schedule)

/-- Week-over-week direction strings produced by `calculateWoWChange`. -/
inductive Dir where
  | up
  | down
  | neutral
deriving DecidableEq, Repr

/-- A persisted weekly snapshot row as read back for the week-over-week
comparison: indicator id, stored percentage, and snapshot date (modelled as a
natural number; only its ordering matters). -/
structure SnapRecord where
  indicatorId : String
  percentage : ℚ
  snapshotDate : ℕ
deriving DecidableEq, Repr

/-- Embeds the map-building loop of `getPreviousWeekSnapshots`: the records
(already filtered to the month/year and ordered by snapshot date descending
by the query) are scanned in order and the first occurrence per indicator id
is kept.  The Go `map[string]float64` is modelled as an association list
queried with `lookupPrev`. -/
def snapshotInsert (acc : List (String × ℚ)) (r : SnapRecord) : List (String × ℚ) :=
  if acc.any (fun e => e.1 == r.indicatorId) then acc
  else acc ++ [(r.indicatorId, r.percentage)]

/-- The fold of `snapshotInsert` over the query result, i.e. the body of
`getPreviousWeekSnapshots`. -/
def getPreviousWeekSnapshots (records : List SnapRecord) : List (String × ℚ) :=
  records.foldl snapshotInsert []

/-- Lookup in the association list built by `getPreviousWeekSnapshots` (each
key occurs at most once, so the first match is the binding). -/
def lookupPrev (m : List (String × ℚ)) (code : String) : Option ℚ :=
  (m.find? (fun e => e.1 == code)).map (fun e => e.2)

/-- Embeds `calculateWoWChange` of the dashboard service. -/
def calculateWoWChange (indicatorCode : String) (currentPercentage : ℚ)
    (prevSnapshots : List (String × ℚ)) : ℚ × Dir :=
  match lookupPrev prevSnapshots indicatorCode with
  | none => (0, .neutral)
  | some prevPercentage =>
    if prevPercentage = 0 then (0, .neutral)
    else
      let change := currentPercentage - prevPercentage
      (change,
        if change > 0.5 then .up
        else if change < -0.5 then .down
        else .neutral)

/-- One step of the counting loop of `GetDashboardData`: the `switch` on the
per-metric status that increments `(greenCount, yellowCount, redCount)`. -/
def countStep (c : ℕ × ℕ × ℕ) (it : ℚ × Bool) : ℕ × ℕ × ℕ :=
  match calculateStatus it.1 it.2 with
  | .green => (c.1 + 1, c.2.1, c.2.2)
  | .supergreen => (c.1 + 1, c.2.1, c.2.2)
  | .yellow => (c.1, c.2.1 + 1, c.2.2)
  | .red => (c.1, c.2.1, c.2.2 + 1)

/-- Embeds the counting loop of `GetDashboardData` over the classified
metrics, each given as `(percentage, isInverse)`. -/
def statusCounts (items : List (ℚ × Bool)) : ℕ × ℕ × ℕ :=
  items.foldl countStep (0, 0, 0)

/-- Embeds the overall percentage computation of `GetDashboardData`:
`greenCount / totalIndicators * 100`, `0` when there are no indicators. -/
def overallPercentage (greenCount totalIndicators : ℕ) : ℚ :=
  if 0 < totalIndicators then (greenCount : ℚ) / (totalIndicators : ℚ) * 100 else 0

/-- Embeds the overall status computation of `GetDashboardData`: the normal
threshold table applied to the overall percentage, starting from `red`. -/
def overallStatusOf (p : ℚ) : Status :=
  if p > 85 then .green else if p > 55 then .yellow else .red

/-- `strings.ToLower` for an ASCII character, as used on the sheet's header
and label text. -/
def asciiToLower (c : Char) : Char :=
  if 'A' ≤ c ∧ c ≤ 'Z' then Char.ofNat (c.toNat + 32) else c

/-- ASCII whitespace recognised by `strings.TrimSpace`. -/
def isSpaceChar (c : Char) : Bool := c = ' ' || c = '\t' || c = '\n' || c = '\r'

/-- `strings.ToLower`, modelled on the character list of the string. -/
def goToLower (s : String) : String := ⟨s.data.map asciiToLower⟩

/-- `strings.TrimSpace`, modelled on the character list of the string. -/
def goTrim (s : String) : String :=
  ⟨((s.data.dropWhile isSpaceChar).reverse.dropWhile isSpaceChar).reverse⟩

/-- `strings.HasPrefix`. -/
def goStartsWith (s pat : String) : Bool := s.data.take pat.data.length == pat.data

/-- `strings.HasSuffix`. -/
def goEndsWith (s pat : String) : Bool :=
  s.data.reverse.take pat.data.length == pat.data.reverse

/-- Removal of the first `n` characters (Go slicing after a prefix match). -/
def goDrop (s : String) (n : ℕ) : String := ⟨s.data.drop n⟩

/-- Removal of the last `n` characters (Go slicing after a suffix match). -/
def goDropRight (s : String) (n : ℕ) : String := ⟨s.data.take (s.data.length - n)⟩

/-- `strings.ToLower(strings.TrimSpace(s))`: the normalization applied to
labels both by `discoverRows` and by `getIndicatorRow`. -/
def normalizeLabel (s : String) : String := goToLower (goTrim s)

/-- The fields of `models.Indicator` consumed by the row resolver and the
batch range builder. -/
structure Indicator where
  code : String
  spreadsheetName : String
  spreadsheetRow : ℤ
  isActive : Bool
deriving DecidableEq, Repr

/-- The disambiguation loop of `getIndicatorRow`: starting from the first
matched row, keep the row whose distance to the fallback row is strictly
smaller than the best so far (so the first encountered row wins ties).  The
Go loop carries `bestDiff`, which always equals `|best - fallback|`. -/
def pickClosest (fallback r0 : ℤ) (rest : List ℤ) : ℤ :=
  rest.foldl (fun best r => if |r - fallback| < |best - fallback| then r else best) r0

/-- Embeds `getIndicatorRow` of the sheets service.  The discovered
`KPIRows` map is modelled as a function from normalized label to its list of
row numbers (`[]` for an absent key, which is how a Go map lookup with
`ok && len(rows) > 0` treats both a missing and an empty entry); `none` is
the Go `(0, false)` not-found result. -/
def getIndicatorRow (kpiRows : String → List ℤ) (i : Indicator) : Option ℤ :=
  if i.spreadsheetName ≠ "" then
    match kpiRows (normalizeLabel i.spreadsheetName) with
    | [] => if i.spreadsheetRow > 0 then some i.spreadsheetRow else none
    | [r] => some r
    | r0 :: r1 :: rest => some (pickClosest i.spreadsheetRow r0 (r1 :: rest))
  else if i.spreadsheetRow > 0 then some i.spreadsheetRow else none

/-- The range-building loop of `FetchKPIData`: inactive indicators and
indicators whose row cannot be resolved are skipped; every other indicator
contributes its resolved row. -/
def activeResolvedRows (kpiRows : String → List ℤ) (indicators : List Indicator) :
    List (Indicator × ℤ) :=
  indicators.filterMap (fun i =>
    if i.isActive then (getIndicatorRow kpiRows i).map (fun r => (i, r)) else none)

/-- The fields of a computed indicator that `SaveSnapshot` persists. -/
structure IndicatorResponse where
  code : String
  department : String
  name : String
  target : ℚ
  performance : ℚ
  percentage : ℚ
deriving DecidableEq, Repr

/-- A `models.WeeklySnapshot` row as written by `SaveSnapshot`. -/
structure WeeklySnapshot where
  indicatorId : String
  department : String
  indicatorName : String
  targetValue : ℚ
  performanceValue : ℚ
  percentage : ℚ
  snapshotDate : ℕ
  month : ℤ
  weekNumber : ℤ
  year : ℤ
deriving DecidableEq, Repr

/-- The row built for one indicator inside the insert loop of
`SaveSnapshot`. -/
def toSnapshotRow (snapshotDate : ℕ) (month year weekNumber : ℤ)
    (ind : IndicatorResponse) : WeeklySnapshot :=
  { indicatorId := ind.code, department := ind.department,
    indicatorName := ind.name, targetValue := ind.target,
    performanceValue := ind.performance, percentage := ind.percentage,
    snapshotDate := snapshotDate, month := month, weekNumber := weekNumber,
    year := year }

/-- The `month = ? AND year = ? AND week_number = ?` filter of both the
delete clause of `SaveSnapshot` and the later reads. -/
def keyMatches (month year weekNumber : ℤ) (row : WeeklySnapshot) : Bool :=
  row.month == month && row.year == year && row.weekNumber == weekNumber

/-- Embeds the success path of `SaveSnapshot`: delete every row keyed by
`(month, year, weekNumber)`, then insert one row per indicator.  The table
is modelled as the list of its rows; `snapshotDate` is the `time.Now()`
value taken at the start of the call. -/
def SaveSnapshot (db : List WeeklySnapshot) (indicators : List IndicatorResponse)
    (month year weekNumber : ℤ) (snapshotDate : ℕ) : List WeeklySnapshot :=
  (db.filter (fun row => !keyMatches month year weekNumber row)) ++
    indicators.map (toSnapshotRow snapshotDate month year weekNumber)

/-- One sheet cell of the API response: Go receives `interface{}` values and
only the `cell.(string)` type assertion matters to discovery; any non-string
value (numbers, booleans) is skipped. -/
inductive CellVal where
  | str (s : String)
  | num (q : ℚ)
deriving DecidableEq, Repr

/-- The `nameToMonth` table of the sheets service (lowercase month name to
month number). -/
def nameToMonth : List (String × ℕ) :=
  [("january", 1), ("february", 2), ("march", 3), ("april", 4),
   ("may", 5), ("june", 6), ("july", 7), ("august", 8),
   ("september", 9), ("october", 10), ("november", 11), ("december", 12)]

/-- Go map lookup `nameToMonth[s]`. -/
def monthOfName (s : String) : Option ℕ :=
  (nameToMonth.find? (fun e => e.1 == s)).map (fun e => e.2)

/-- The four header column types recognised by `matchMonthFromHeader`
(Go strings `"target"`, `"lagging"`, `"percent"`, `"perf"`). -/
inductive ColType where
  | target
  | lagging
  | percent
  | perf
deriving DecidableEq, Repr

/-- Embeds `matchMonthFromHeader`: trim and lowercase the header, then match
`"% <month> performance"`, `"<month> target"`, `"<month> lagging"` and the
bare month name in that order; `none` is Go's `(0, "")` no-match result.
Go's loops over the `nameToMonth` map test exact string equality, so at most
one entry can match and the map's iteration order is irrelevant. -/
def matchMonthFromHeader (header : String) : Option (ℕ × ColType) :=
  let lower := normalizeLabel header
  match
    (if goStartsWith lower "% " && goEndsWith lower " performance" then
       (monthOfName (goTrim (goDropRight (goDrop lower 2) 12))).map
         (fun m => ((m : ℕ), ColType.percent))
     else none) with
  | some res => some res
  | none =>
    match (nameToMonth.find? (fun e => lower == e.1 ++ " target")).map
        (fun e => ((e.2 : ℕ), ColType.target)) with
    | some res => some res
    | none =>
      match (nameToMonth.find? (fun e => lower == e.1 ++ " lagging")).map
          (fun e => ((e.2 : ℕ), ColType.lagging)) with
      | some res => some res
      | none => (monthOfName lower).map (fun m => ((m : ℕ), ColType.perf))

/-- The `[4]int` slot array of one month in the discovered layout:
`[targetIdx, laggingIdx, percentIdx, perfIdx]` (0-based column indices).
The Go zero value is `MonthEntry.zero`. -/
structure MonthEntry where
  target : ℕ
  lagging : ℕ
  percent : ℕ
  perf : ℕ
deriving DecidableEq, Repr

def MonthEntry.zero : MonthEntry := ⟨0, 0, 0, 0⟩

/-- The `switch colType` assignment of `discoverColumns`. -/
def setEntry (e : MonthEntry) (t : ColType) (colIdx : ℕ) : MonthEntry :=
  match t with
  | .target => { e with target := colIdx }
  | .lagging => { e with lagging := colIdx }
  | .percent => { e with percent := colIdx }
  | .perf => { e with perf := colIdx }

/-- Projection of one slot of a month entry, indexed by column type. -/
def entryField (t : ColType) (e : MonthEntry) : ℕ :=
  match t with
  | .target => e.target
  | .lagging => e.lagging
  | .percent => e.percent
  | .perf => e.perf

/-- The `cell.(string)` type assertion followed by `matchMonthFromHeader`:
non-string cells never match. -/
def cellMatch : CellVal → Option (ℕ × ColType)
  | .str s => matchMonthFromHeader s
  | .num _ => none

/-- One iteration of the header loop of `discoverColumns`: non-string cells
and non-matching headers are skipped; a match reads the month's current
entry (the zero array when the month is met for the first time), overwrites
the matched slot with this column index and stores the entry back. -/
def headerStep (acc : ℕ → Option MonthEntry) (cell : ℕ × CellVal) :
    ℕ → Option MonthEntry :=
  match cellMatch cell.2 with
  | none => acc
  | some (m, t) =>
    Function.update acc m (some (setEntry ((acc m).getD MonthEntry.zero) t cell.1))

/-- The header loop of `discoverColumns` over the (0-indexed) header row;
the Go `map[int][4]int` is modelled as a function to `Option MonthEntry`. -/
def scanHeader (row : List CellVal) : ℕ → Option MonthEntry :=
  row.enum.foldl headerStep (fun _ => none)

/-- Embeds `discoverColumns`: the underlying range read is the `fetch`
argument (an API error or the returned rows); an empty response or an empty
first row is the `"header row is empty"` failure. -/
def discoverColumns (fetch : Except String (List (List CellVal))) :
    Except String (ℕ → Option MonthEntry) :=
  match fetch with
  | .error e => .error ("failed to fetch header row: " ++ e)
  | .ok values =>
    match values with
    | [] => .error "header row is empty"
    | first :: _ =>
      if first = [] then .error "header row is empty"
      else .ok (scanHeader first)

/-- One iteration of the label-column loop of `discoverRows`: empty rows,
non-string cells and empty strings are skipped; otherwise the 1-based row
number is appended under the normalized label. -/
def rowStep (acc : String → List ℤ) (cell : ℕ × List CellVal) : String → List ℤ :=
  match cell.2 with
  | [] => acc
  | c :: _ =>
    match c with
    | .num _ => acc
    | .str s =>
      if s = "" then acc
      else
        Function.update acc (normalizeLabel s)
          (acc (normalizeLabel s) ++ [((cell.1 : ℤ) + 1)])

/-- Embeds `discoverRows`: an API error propagates; an empty response is NOT
an error — the Go code returns the empty map (`result, nil`), which the
fold over the empty list produces here as well. -/
def discoverRows (fetch : Except String (List (List CellVal))) :
    Except String (String → List ℤ) :=
  match fetch with
  | .error e => .error ("failed to fetch column C: " ++ e)
  | .ok values => values.enum.foldl rowStep (fun _ => []) |> .ok

/-- The discovered layout snapshot (`LastRefresh` is kept by the cache model
separately). -/
structure DiscoveredLayout where
  monthColumns : ℕ → Option MonthEntry
  kpiRows : String → List ℤ

/-- Embeds `DiscoverLayout`: column discovery, then row discovery, each
error wrapped with its context. -/
def DiscoverLayout (headerFetch colFetch : Except String (List (List CellVal))) :
    Except String DiscoveredLayout :=
  match discoverColumns headerFetch with
  | .error e => .error ("column discovery failed: " ++ e)
  | .ok monthCols =>
    match discoverRows colFetch with
    | .error e => .error ("row discovery failed: " ++ e)
    | .ok kpiRows => .ok ⟨monthCols, kpiRows⟩

/-- Program counter of one `GetLayout` caller in the layout-cache model:
`idle` before the call; `rlocked` holding the read lock about to test
freshness; `acquire` after releasing the read lock, waiting for the write
lock; `wlocked` holding the write lock about to re-test freshness (the
double check); `disc` performing the external discovery round-trip under the
write lock; `done` returned. -/
inductive CachePC where
  | idle
  | rlocked
  | acquire
  | wlocked
  | disc
  | done
deriving DecidableEq, Repr

/-- Global state of the layout-cache model: the cached layout (a snapshot
id, `none` when never discovered or invalidated) with its refresh time, the
clock, the `sync.RWMutex` (writer identity and reader list), each caller's
program counter and returned layout, and the number of external discovery
calls issued so far. -/
structure CacheState where
  layout : Option ℕ
  last : ℕ
  now : ℕ
  writer : Option ℕ
  readers : List ℕ
  pcs : ℕ → CachePC
  res : ℕ → Option ℕ
  calls : ℕ

/-- The freshness test of `GetLayout`:
`s.layout != nil && time.Since(s.layout.LastRefresh) < 5*time.Minute`
(time counted in minutes). -/
def lfresh (s : CacheState) : Bool :=
  s.layout.isSome && s.now - s.last < 5

/-- Initial cache state: no cached layout, all callers idle. -/
def cacheInit : CacheState :=
  { layout := none, last := 0, now := 0, writer := none, readers := [],
    pcs := fun _ => .idle, res := fun _ => none, calls := 0 }

/-- Interleaving small-step semantics of `GetLayout` and `InvalidateLayout`
under Go's `sync.RWMutex`: `RLock` requires no writer, `Lock` requires no
writer and no readers; the fast path returns the cached layout under the
read lock when fresh; a stale reader releases the read lock, takes the write
lock, re-checks freshness (returning without discovery if another caller
refreshed meanwhile) and only then performs the external call, which either
succeeds (storing the new snapshot) or fails (returning the old cached
value, `none` when there is none).  `tick` advances the clock and
`invalidate` clears the cache. -/
inductive CacheStep : CacheState → CacheState → Prop where
  | tick (s : CacheState) :
      CacheStep s { s with now := s.now + 1 }
  | rlock (s : CacheState) (t : ℕ) :
      s.pcs t = .idle → s.writer = none →
      CacheStep s { s with pcs := Function.update s.pcs t .rlocked,
                           readers := t :: s.readers }
  | fastRet (s : CacheState) (t : ℕ) :
      s.pcs t = .rlocked → lfresh s = true →
      CacheStep s { s with pcs := Function.update s.pcs t .done,
                           res := Function.update s.res t s.layout,
                           readers := s.readers.erase t }
  | slowPath (s : CacheState) (t : ℕ) :
      s.pcs t = .rlocked → lfresh s = false →
      CacheStep s { s with pcs := Function.update s.pcs t .acquire,
                           readers := s.readers.erase t }
  | wlock (s : CacheState) (t : ℕ) :
      s.pcs t = .acquire → s.writer = none → s.readers = [] →
      CacheStep s { s with pcs := Function.update s.pcs t .wlocked,
                           writer := some t }
  | recheckFresh (s : CacheState) (t : ℕ) :
      s.pcs t = .wlocked → lfresh s = true →
      CacheStep s { s with pcs := Function.update s.pcs t .done,
                           res := Function.update s.res t s.layout,
                           writer := none }
  | startDisc (s : CacheState) (t : ℕ) :
      s.pcs t = .wlocked → lfresh s = false →
      CacheStep s { s with pcs := Function.update s.pcs t .disc,
                           calls := s.calls + 1 }
  | finishDisc (s : CacheState) (t : ℕ) (v : ℕ) :
      s.pcs t = .disc →
      CacheStep s { s with pcs := Function.update s.pcs t .done,
                           layout := some v, last := s.now,
                           res := Function.update s.res t (some v),
                           writer := none }
  | failDisc (s : CacheState) (t : ℕ) :
      s.pcs t = .disc →
      CacheStep s { s with pcs := Function.update s.pcs t .done,
                           res := Function.update s.res t s.layout,
                           writer := none }
  | invalidate (s : CacheState) :
      s.writer = none → s.readers = [] →
      CacheStep s { s with layout := none }

/-- Reachability of a cache state from the initial state. -/
inductive CacheReach : CacheState → Prop where
  | init : CacheReach cacheInit
  | step {s s' : CacheState} : CacheReach s → CacheStep s s' → CacheReach s'

/-- Witness execution, step 1: caller 0 takes the read lock. -/
def wCache1 : CacheState :=
  { cacheInit with pcs := Function.update cacheInit.pcs 0 .rlocked,
                   readers := 0 :: cacheInit.readers }

/-- Witness execution, step 2: caller 0 finds the cache absent. -/
def wCache2 : CacheState :=
  { wCache1 with pcs := Function.update wCache1.pcs 0 .acquire,
                 readers := wCache1.readers.erase 0 }

/-- Witness execution, step 3: caller 0 takes the write lock. -/
def wCache3 : CacheState :=
  { wCache2 with pcs := Function.update wCache2.pcs 0 .wlocked,
                 writer := some 0 }

/-- Witness execution, step 4: caller 0 starts the discovery round-trip. -/
def wCache4 : CacheState :=
  { wCache3 with pcs := Function.update wCache3.pcs 0 .disc,
                 calls := wCache3.calls + 1 }

/-- Witness execution, step 5: discovery succeeds with snapshot 42. -/
def wCache5 : CacheState :=
  { wCache4 with pcs := Function.update wCache4.pcs 0 .done,
                 layout := some 42, last := wCache4.now,
                 res := Function.update wCache4.res 0 (some 42),
                 writer := none }

/-- Witness execution, step 6: caller 1 takes the read lock while fresh. -/
def wCache6 : CacheState :=
  { wCache5 with pcs := Function.update wCache5.pcs 1 .rlocked,
                 readers := 1 :: wCache5.readers }

/-- Witness execution, step 7: caller 1 returns the cached snapshot. -/
def wCache7 : CacheState :=
  { wCache6 with pcs := Function.update wCache6.pcs 1 .done,
                 res := Function.update wCache6.res 1 wCache6.layout,
                 readers := wCache6.readers.erase 1 }

/-- C1: status classification is a pure function of `(percentage, isInverse)`
matching the two threshold tables exactly: for normal metrics supergreen iff
`>100`, green iff `85 < · ≤ 100`, yellow iff `55 < · ≤ 85`, red iff `≤ 55`;
for inverse metrics red iff `≥100`, yellow iff `85 ≤ · < 100`, green iff
`55 ≤ · < 85`, supergreen iff `< 55`; at the boundary, normal `85.0` is
yellow and `85.01` green, inverse `85.0` is yellow and `84.99` green. -/
theorem calculateStatus_matches_threshold_tables (p : ℚ) :
    ((calculateStatus p false = .supergreen ↔ 100 < p) ∧
     (calculateStatus p false = .green ↔ 85 < p ∧ p ≤ 100) ∧
     (calculateStatus p false = .yellow ↔ 55 < p ∧ p ≤ 85) ∧
     (calculateStatus p false = .red ↔ p ≤ 55)) ∧
    ((calculateStatus p true = .red ↔ 100 ≤ p) ∧
     (calculateStatus p true = .yellow ↔ 85 ≤ p ∧ p < 100) ∧
     (calculateStatus p true = .green ↔ 55 ≤ p ∧ p < 85) ∧
     (calculateStatus p true = .supergreen ↔ p < 55)) ∧
    (calculateStatus 85 false = .yellow ∧ calculateStatus 85.01 false = .green ∧
     calculateStatus 85 true = .yellow ∧ calculateStatus 84.99 true = .green) := by
  refine ⟨⟨?_, ?_, ?_, ?_⟩, ⟨?_, ?_, ?_, ?_⟩,
    by norm_num [calculateStatus], by norm_num [calculateStatus],
    by norm_num [calculateStatus], by norm_num [calculateStatus]⟩ <;>
    · simp only [calculateStatus, Bool.false_eq_true, if_false, if_true]
      split_ifs <;> simp_all <;> first | linarith | (intros; linarith)

/-- C2: the per-metric percentage is `0` when the target is `0`, and otherwise
equals `actual / target * 100` capped above at `999`; there is no flooring at
`0`: a negative actual/target ratio yields a negative percentage. -/
theorem calculatedPercentage_formula (target actual : ℚ) :
    (target = 0 → calculatedPercentage target actual = 0) ∧
    (target ≠ 0 → calculatedPercentage target actual = min (actual / target * 100) 999) ∧
    (target ≠ 0 → actual / target < 0 → calculatedPercentage target actual < 0) := by
  refine ⟨fun h => ?_, fun h => ?_, fun h hneg => ?_⟩
  · simp [calculatedPercentage, h]
  · simp only [calculatedPercentage, h, if_true, ne_eq, not_false_iff]
    rcases le_or_lt (actual / target * 100) 999 with hle | hgt
    · rw [min_eq_left hle, if_neg (not_lt.mpr hle)]
    · rw [min_eq_right hgt.le, if_pos hgt]
  · have hlt : actual / target * 100 < 0 := by nlinarith
    simp only [calculatedPercentage, h, if_true, ne_eq, not_false_iff]
    rw [if_neg (by linarith)]
    exact hlt

/-- Witness for C2 at concrete inputs: target `0` gives percentage `0`, and a
negative ratio (`actual = -2`, `target = 4`) gives a negative percentage. -/
theorem calculatedPercentage_formula_witness :
    calculatedPercentage 0 5 = 0 ∧ calculatedPercentage 4 (-2) < 0 :=
  ⟨(calculatedPercentage_formula 0 5).1 rfl,
   (calculatedPercentage_formula 4 (-2)).2.2 (by norm_num) (by norm_num)⟩

/-- C3: if the target is `0` or the day-prorated expected progress
`target * (currentDay / daysInMonth)` is `0`, the variance is `0` and the
schedule status is `on_schedule`; otherwise the expected progress is rounded
to two decimals, the variance is `(actual − expected)/expected * 100`
(direction flipped for inverse metrics) rounded to one decimal, and the
schedule status is ahead iff variance `> 5`, behind iff `< -5`, else
on-schedule; in particular target `100`, actual `90` on day 15 of the 30-day
June 2025 gives expected progress `50`, variance `+80`, ahead. -/
theorem calculateVariance_spec (target actual : ℚ) (isInverse : Bool) (month : ℕ)
    (year : ℤ) (currentDay : ℕ) (ep v : ℚ) (ss : Sched)
    (h : calculateVariance target actual isInverse month year currentDay = (ep, v, ss)) :
    (target = 0 ∨ target * ((currentDay : ℚ) / (daysInMonth month year : ℚ)) = 0 →
        ep = 0 ∧ v = 0 ∧ ss = .on_schedule) ∧
    (∀ e : ℚ, e = target * ((currentDay : ℚ) / (daysInMonth month year : ℚ)) →
        target ≠ 0 → e ≠ 0 →
        ep = round2 e ∧
        v = round1 (if isInverse then (e - actual) / e * 100 else (actual - e) / e * 100) ∧
        ((ss = .ahead ↔ 5 < v) ∧ (ss = .behind ↔ v < -5) ∧
         (ss = .on_schedule ↔ -5 ≤ v ∧ v ≤ 5))) ∧
    calculateVariance 100 90 false 6 2025 15 = (50, 80, .ahead) := by
  refine ⟨?_, ?_, by norm_num [calculateVariance, daysInMonth, isLeapYear, round1, round2, goRound, Prod.mk.injEq]⟩
  · rintro (h0 | h0)
    · simp only [calculateVariance, if_pos h0, Prod.mk.injEq] at h
      exact ⟨h.1.symm, h.2.1.symm, h.2.2.symm⟩
    · by_cases ht : target = 0
      · simp only [calculateVariance, if_pos ht, Prod.mk.injEq] at h
        exact ⟨h.1.symm, h.2.1.symm, h.2.2.symm⟩
      · simp only [calculateVariance, if_neg ht] at h
        rw [if_pos h0] at h
        simp only [Prod.mk.injEq] at h
        exact ⟨h0 ▸ h.1.symm, h.2.1.symm, h.2.2.symm⟩
  · rintro e rfl ht hne
    simp only [calculateVariance, if_neg ht] at h
    rw [if_neg hne] at h
    simp only [Prod.mk.injEq] at h
    obtain ⟨hep, hv, hss⟩ := h
    refine ⟨hep.symm, hv.symm, ?_⟩
    rw [← hss, ← hv]
    split_ifs with h1 h2 <;>
      refine ⟨?_, ?_, ?_⟩ <;> simp_all <;> linarith

/-- Witness for C3: the theorem applied to the concrete scenario target `100`,
actual `90`, normal metric, day 15 of June 2025 (30 days). -/
theorem calculateVariance_spec_witness :
    (50 : ℚ) = round2 50 ∧
    (80 : ℚ) = round1 (if false then ((50 : ℚ) - 90) / 50 * 100 else ((90 : ℚ) - 50) / 50 * 100) ∧
    ((Sched.ahead = .ahead ↔ (5 : ℚ) < 80) ∧ (Sched.ahead = .behind ↔ (80 : ℚ) < -5) ∧
     (Sched.ahead = .on_schedule ↔ (-5 : ℚ) ≤ 80 ∧ (80 : ℚ) ≤ 5)) :=
  (calculateVariance_spec 100 90 false 6 2025 15 50 80 .ahead
      (by norm_num [calculateVariance, daysInMonth, isLeapYear, round1, round2, goRound,
        Prod.mk.injEq])).2.1 50
    (by norm_num [daysInMonth]) (by norm_num) (by norm_num)

theorem lookupPrev_snapshotFold_some (records : List SnapRecord)
    (acc : List (String × ℚ)) (code : String) (p : ℚ)
    (h : lookupPrev acc code = some p) :
    lookupPrev (records.foldl snapshotInsert acc) code = some p := by
  induction records generalizing acc with
  | nil => simpa using h
  | cons r rs ih =>
    rw [List.foldl_cons]
    apply ih
    unfold snapshotInsert
    split_ifs with hany
    · exact h
    · unfold lookupPrev at h ⊢
      rw [List.find?_append]
      cases hf : acc.find? (fun e => e.1 == code) with
      | none => rw [hf] at h; simp at h
      | some e => rw [hf] at h; simpa [Option.or] using h

theorem lookupPrev_snapshotFold_none (records : List SnapRecord)
    (acc : List (String × ℚ)) (code : String)
    (h : lookupPrev acc code = none) :
    lookupPrev (records.foldl snapshotInsert acc) code =
      (records.find? (fun x => x.indicatorId == code)).map (fun x => x.percentage) := by
  induction records generalizing acc with
  | nil => simpa using h
  | cons r rs ih =>
    rw [List.foldl_cons]
    have hfacc : acc.find? (fun e => e.1 == code) = none := by
      unfold lookupPrev at h
      exact Option.map_eq_none.mp h
    by_cases hc : r.indicatorId = code
    · subst hc
      have hany : acc.any (fun e => e.1 == r.indicatorId) = false := by
        rw [List.any_eq_false]
        intro e he
        exact List.find?_eq_none.mp hfacc e he
      have hstep : snapshotInsert acc r = acc ++ [(r.indicatorId, r.percentage)] := by
        unfold snapshotInsert
        rw [if_neg (by simp [hany])]
      rw [hstep, List.find?_cons_of_pos _ (by simp)]
      apply lookupPrev_snapshotFold_some
      unfold lookupPrev
      rw [List.find?_append, hfacc]
      simp [Option.or]
    · rw [List.find?_cons_of_neg _ (by simp [hc])]
      apply ih
      unfold snapshotInsert
      split_ifs with hany
      · exact h
      · unfold lookupPrev
        rw [List.find?_append, hfacc]

        simp only [Option.or, List.find?]
        rw [show (r.indicatorId == code) = false from beq_eq_false_iff_ne.mpr hc]
        rfl

theorem find?_sorted_most_recent (records : List SnapRecord) (code : String)
    (r : SnapRecord)
    (hs : List.Sorted (fun a b => b.snapshotDate ≤ a.snapshotDate) records)
    (hf : records.find? (fun x => x.indicatorId == code) = some r) :
    r ∈ records ∧ r.indicatorId = code ∧
      ∀ r' ∈ records, r'.indicatorId = code → r'.snapshotDate ≤ r.snapshotDate := by
  induction records with
  | nil => simp at hf
  | cons a l ih =>
    rw [List.sorted_cons] at hs
    by_cases ha : a.indicatorId = code
    · rw [List.find?_cons_of_pos _ (by simp [ha])] at hf
      obtain rfl := Option.some.inj hf
      refine ⟨List.mem_cons_self _ _, ha, ?_⟩
      intro r' hr' _
      rcases List.mem_cons.mp hr' with rfl | hmem
      · exact le_refl _
      · exact hs.1 r' hmem
    · rw [List.find?_cons_of_neg _ (by simp [ha])] at hf
      obtain ⟨hmem, hid, hmax⟩ := ih hs.2 hf
      refine ⟨List.mem_cons_of_mem _ hmem, hid, ?_⟩
      intro r' hr' hid'
      rcases List.mem_cons.mp hr' with rfl | hmem'
      · exact absurd hid' ha
      · exact hmax r' hmem' hid'

/-- C8: if the most recent prior snapshot percentage for the metric is absent
or `0`, the week-over-week result is `(0, neutral)`; otherwise the change is
`current − previous`, the direction is up iff change `> 0.5`, down iff
`< -0.5`, and neutral iff `|change| ≤ 0.5`; the previous-percentage map built
by `getPreviousWeekSnapshots` binds each indicator to the first record of the
date-descending query result, which is its most recent snapshot. -/
theorem calculateWoWChange_spec (code : String) (cur : ℚ) (records : List SnapRecord)
    (hs : List.Sorted (fun a b => b.snapshotDate ≤ a.snapshotDate) records) :
    (lookupPrev (getPreviousWeekSnapshots records) code = none ∨
     lookupPrev (getPreviousWeekSnapshots records) code = some 0 →
        calculateWoWChange code cur (getPreviousWeekSnapshots records) = (0, .neutral)) ∧
    (∀ prev, lookupPrev (getPreviousWeekSnapshots records) code = some prev → prev ≠ 0 →
        (calculateWoWChange code cur (getPreviousWeekSnapshots records)).1 = cur - prev ∧
        ((calculateWoWChange code cur (getPreviousWeekSnapshots records)).2 = .up ↔
            0.5 < cur - prev) ∧
        ((calculateWoWChange code cur (getPreviousWeekSnapshots records)).2 = .down ↔
            cur - prev < -0.5) ∧
        ((calculateWoWChange code cur (getPreviousWeekSnapshots records)).2 = .neutral ↔
            |cur - prev| ≤ 0.5)) ∧
    lookupPrev (getPreviousWeekSnapshots records) code =
      (records.find? (fun x => x.indicatorId == code)).map (fun x => x.percentage) ∧
    (∀ r, records.find? (fun x => x.indicatorId == code) = some r →
        r ∈ records ∧ r.indicatorId = code ∧
        ∀ r' ∈ records, r'.indicatorId = code → r'.snapshotDate ≤ r.snapshotDate) := by
  refine ⟨?_, ?_,
    lookupPrev_snapshotFold_none records [] code (by simp [lookupPrev]),
    fun r hf => find?_sorted_most_recent records code r hs hf⟩
  · rintro (h | h) <;> simp [calculateWoWChange, h]
  · intro prev hp hne
    have hres : calculateWoWChange code cur (getPreviousWeekSnapshots records)
        = (cur - prev,
           if cur - prev > 0.5 then Dir.up
           else if cur - prev < -0.5 then Dir.down else Dir.neutral) := by
      simp [calculateWoWChange, hp, hne]
    rw [hres]
    refine ⟨rfl, ?_, ?_, ?_⟩ <;>
      · split_ifs with h1 h2 <;> simp_all [abs_le] <;>
          first
            | linarith
            | (intros; linarith)

/-- Witness for C8: two snapshots for indicator `"a"` (percentages 90 then
80, dates 10 then 5); the most recent (90) is used and current 91 gives
change `+1`, direction up. -/
theorem calculateWoWChange_spec_witness :
    (calculateWoWChange "a" 91 (getPreviousWeekSnapshots
        [⟨"a", 90, 10⟩, ⟨"a", 80, 5⟩])).1 = 91 - 90 ∧
    ((calculateWoWChange "a" 91 (getPreviousWeekSnapshots
        [⟨"a", 90, 10⟩, ⟨"a", 80, 5⟩])).2 = .up ↔ (0.5 : ℚ) < 91 - 90) ∧
    ((calculateWoWChange "a" 91 (getPreviousWeekSnapshots
        [⟨"a", 90, 10⟩, ⟨"a", 80, 5⟩])).2 = .down ↔ (91 : ℚ) - 90 < -0.5) ∧
    ((calculateWoWChange "a" 91 (getPreviousWeekSnapshots
        [⟨"a", 90, 10⟩, ⟨"a", 80, 5⟩])).2 = .neutral ↔ |(91 : ℚ) - 90| ≤ 0.5) :=
  (calculateWoWChange_spec "a" 91 [⟨"a", 90, 10⟩, ⟨"a", 80, 5⟩]
      (by simp [List.sorted_cons])).2.1 90 (by rfl) (by norm_num)

theorem countStep_foldl_green (items : List (ℚ × Bool)) :
    ∀ c : ℕ × ℕ × ℕ, (items.foldl countStep c).1 =
      c.1 + items.countP (fun it =>
        decide (calculateStatus it.1 it.2 = Status.green ∨
                calculateStatus it.1 it.2 = Status.supergreen)) := by
  induction items with
  | nil => intro c; simp
  | cons a l ih =>
    intro c
    rw [List.foldl_cons, ih, List.countP_cons]
    cases hst : calculateStatus a.1 a.2 <;> simp [countStep, hst] <;> omega

theorem countStep_foldl_sum (items : List (ℚ × Bool)) :
    ∀ c : ℕ × ℕ × ℕ,
      (items.foldl countStep c).1 + (items.foldl countStep c).2.1 +
        (items.foldl countStep c).2.2 = c.1 + c.2.1 + c.2.2 + items.length := by
  induction items with
  | nil => intro c; simp
  | cons a l ih =>
    intro c
    rw [List.foldl_cons, ih]
    cases hst : calculateStatus a.1 a.2 <;> simp [countStep, hst] <;> omega

/-- C9: `greenCount` counts exactly the metrics whose per-metric status is
green or supergreen; the three buckets classify every metric; the overall
percentage is `greenCount / totalClassified * 100` and `0` with no metrics;
and the overall status uses the normal threshold table only (green `>85`,
yellow `>55`, else red), never supergreen — e.g. at `101` the per-metric
table says supergreen while the overall table says green. -/
theorem overall_aggregation_spec (items : List (ℚ × Bool)) (p : ℚ) :
    (statusCounts items).1 = items.countP (fun it =>
        decide (calculateStatus it.1 it.2 = Status.green ∨
                calculateStatus it.1 it.2 = Status.supergreen)) ∧
    (statusCounts items).1 + (statusCounts items).2.1 + (statusCounts items).2.2
        = items.length ∧
    (items.length = 0 →
        overallPercentage (statusCounts items).1 items.length = 0) ∧
    (0 < items.length →
        overallPercentage (statusCounts items).1 items.length
          = ((statusCounts items).1 : ℚ) / (items.length : ℚ) * 100) ∧
    (overallStatusOf p ≠ .supergreen ∧
     (overallStatusOf p = .green ↔ 85 < p) ∧
     (overallStatusOf p = .yellow ↔ 55 < p ∧ p ≤ 85) ∧
     (overallStatusOf p = .red ↔ p ≤ 55)) ∧
    (calculateStatus 101 false = .supergreen ∧ overallStatusOf 101 = .green) := by
  refine ⟨by simpa using countStep_foldl_green items (0, 0, 0),
    by simpa using countStep_foldl_sum items (0, 0, 0),
    fun h => by simp [overallPercentage, h],
    fun h => by simp [overallPercentage, h],
    ⟨?_, ?_, ?_, ?_⟩,
    by norm_num [calculateStatus], by norm_num [overallStatusOf]⟩ <;>
    · simp only [overallStatusOf]
      split_ifs <;> simp_all <;> linarith

/-- Witness for C9: one metric at 90 (normal) is green, so the overall
percentage over a single classified metric is `1/1*100`. -/
theorem overall_aggregation_spec_witness :
    overallPercentage (statusCounts [((90 : ℚ), false)]).1 [((90 : ℚ), false)].length
      = ((statusCounts [((90 : ℚ), false)]).1 : ℚ) / ([((90 : ℚ), false)].length : ℚ) * 100 :=
  (overall_aggregation_spec [((90 : ℚ), false)] 0).2.2.2.1 (by norm_num)

/-- C6: replaying `SaveSnapshot` for the same `(month, year, week)` key with
indicator sets `A` then `B` leaves exactly the rows of `B` under that key
(one per indicator of `B`, in order), and any `A`-row still present must be
one of `B`'s rows — last-write-wins replacement, never a union. -/
theorem SaveSnapshot_last_write_wins (db : List WeeklySnapshot)
    (A B : List IndicatorResponse) (month year week : ℤ) (d1 d2 : ℕ) :
    (SaveSnapshot (SaveSnapshot db A month year week d1) B month year week d2).filter
        (keyMatches month year week)
      = B.map (toSnapshotRow d2 month year week) ∧
    ∀ r ∈ A.map (toSnapshotRow d1 month year week),
      r ∈ SaveSnapshot (SaveSnapshot db A month year week d1) B month year week d2 →
      r ∈ B.map (toSnapshotRow d2 month year week) := by
  have hkey : ∀ (d : ℕ) (ind : IndicatorResponse),
      keyMatches month year week (toSnapshotRow d month year week ind) = true := by
    intro d ind
    simp [keyMatches, toSnapshotRow]
  have hfil : ∀ (db' : List WeeklySnapshot) (C : List IndicatorResponse) (d : ℕ),
      (SaveSnapshot db' C month year week d).filter (keyMatches month year week)
        = C.map (toSnapshotRow d month year week) := by
    intro db' C d
    rw [SaveSnapshot, List.filter_append]
    have h1 : (db'.filter (fun row => !keyMatches month year week row)).filter
        (keyMatches month year week) = [] := by
      rw [List.filter_filter]
      apply List.filter_eq_nil_iff.mpr
      intro a _
      cases h : keyMatches month year week a <;> simp [h]
    rw [h1, List.nil_append]
    apply List.filter_eq_self.mpr
    intro r hr
    obtain ⟨ind, _, rfl⟩ := List.mem_map.mp hr
    exact hkey d ind
  refine ⟨hfil _ B d2, ?_⟩
  intro r hrA hrIn
  have hk : keyMatches month year week r = true := by
    obtain ⟨ind, _, rfl⟩ := List.mem_map.mp hrA
    exact hkey d1 ind
  have hmem : r ∈ (SaveSnapshot (SaveSnapshot db A month year week d1) B
      month year week d2).filter (keyMatches month year week) :=
    List.mem_filter.mpr ⟨hrIn, hk⟩
  rwa [hfil _ B d2] at hmem

/-- Witness for C6: saving the same single indicator twice keeps its row —
the second save's rows are exactly what remains for the key. -/
theorem SaveSnapshot_last_write_wins_witness :
    toSnapshotRow 0 1 2025 2 ⟨"a", "d", "n", 1, 2, 3⟩ ∈
      ([⟨"a", "d", "n", 1, 2, 3⟩] : List IndicatorResponse).map (toSnapshotRow 0 1 2025 2) :=
  (SaveSnapshot_last_write_wins [] [⟨"a", "d", "n", 1, 2, 3⟩] [⟨"a", "d", "n", 1, 2, 3⟩]
      1 2025 2 0 0).2
    (toSnapshotRow 0 1 2025 2 ⟨"a", "d", "n", 1, 2, 3⟩) (by decide) (by decide)

theorem foldl_pickStep_argAux (fb : ℤ) (rest : List ℤ) : ∀ r0 : ℤ,
    some (rest.foldl (fun best r => if |r - fb| < |best - fb| then r else best) r0)
      = rest.foldl (List.argAux fun b c => |b - fb| < |c - fb|) (some r0) := by
  induction rest with
  | nil => intro r0; rfl
  | cons r rs ih =>
    intro r0
    rw [List.foldl_cons, List.foldl_cons]
    have ha : List.argAux (fun b c => |b - fb| < |c - fb|) (some r0) r
        = some (if |r - fb| < |r0 - fb| then r else r0) := by
      simp only [List.argAux]
      split_ifs <;> rfl
    rw [ha, ← ih (if |r - fb| < |r0 - fb| then r else r0)]

theorem pickClosest_eq_argmin (fb r0 : ℤ) (rest : List ℤ) :
    some (pickClosest fb r0 rest) = List.argmin (fun r => |r - fb|) (r0 :: rest) := by
  show some (pickClosest fb r0 rest)
      = List.foldl (List.argAux fun b c => |b - fb| < |c - fb|) none (r0 :: rest)
  rw [List.foldl_cons]
  exact foldl_pickStep_argAux fb rest r0

/-- C7: row resolution follows the priority order of `getIndicatorRow`: a
unique label match wins; among several matches the row numerically closest
to the fallback row wins, the first encountered winning an equal-distance
tie (stated via the index); with no label match the fallback row is used
when positive, otherwise the metric resolves to nothing and is dropped from
the batch range list on its own; a label found at rows 36 and 61 with
fallback 36 resolves to 36. -/
theorem getIndicatorRow_spec (kpiRows : String → List ℤ) (i : Indicator) :
    (i.spreadsheetName ≠ "" → ∀ r, kpiRows (normalizeLabel i.spreadsheetName) = [r] →
        getIndicatorRow kpiRows i = some r) ∧
    (i.spreadsheetName ≠ "" → ∀ r0 r1 rest,
        kpiRows (normalizeLabel i.spreadsheetName) = r0 :: r1 :: rest →
        ∃ b, getIndicatorRow kpiRows i = some b ∧ b ∈ r0 :: r1 :: rest ∧
          (∀ r' ∈ r0 :: r1 :: rest, |b - i.spreadsheetRow| ≤ |r' - i.spreadsheetRow|) ∧
          (∀ r' ∈ r0 :: r1 :: rest, |r' - i.spreadsheetRow| ≤ |b - i.spreadsheetRow| →
            (r0 :: r1 :: rest).indexOf b ≤ (r0 :: r1 :: rest).indexOf r')) ∧
    (i.spreadsheetName ≠ "" → kpiRows (normalizeLabel i.spreadsheetName) = [] →
        getIndicatorRow kpiRows i
          = if i.spreadsheetRow > 0 then some i.spreadsheetRow else none) ∧
    (i.spreadsheetName = "" →
        getIndicatorRow kpiRows i
          = if i.spreadsheetRow > 0 then some i.spreadsheetRow else none) ∧
    (∀ pre post, i.isActive = true → getIndicatorRow kpiRows i = none →
        activeResolvedRows kpiRows (pre ++ i :: post)
          = activeResolvedRows kpiRows pre ++ activeResolvedRows kpiRows post) ∧
    (getIndicatorRow (fun l => if l = "customer satisfaction" then [36, 61] else [])
        ⟨"CS", "Customer Satisfaction", 36, true⟩ = some 36) := by
  refine ⟨?_, ?_, ?_, ?_, ?_, by decide⟩
  · intro hn r hr
    simp [getIndicatorRow, hn, hr]
  · intro hn r0 r1 rest hr
    have hget : getIndicatorRow kpiRows i
        = some (pickClosest i.spreadsheetRow r0 (r1 :: rest)) := by
      simp [getIndicatorRow, hn, hr]
    have hb : some (pickClosest i.spreadsheetRow r0 (r1 :: rest))
        = List.argmin (fun r => |r - i.spreadsheetRow|) (r0 :: r1 :: rest) :=
      pickClosest_eq_argmin i.spreadsheetRow r0 (r1 :: rest)
    have hmem : pickClosest i.spreadsheetRow r0 (r1 :: rest)
        ∈ List.argmin (fun r => |r - i.spreadsheetRow|) (r0 :: r1 :: rest) :=
      Option.mem_def.mpr hb.symm
    exact ⟨pickClosest i.spreadsheetRow r0 (r1 :: rest), hget, List.argmin_mem hmem,
      fun r' hr' => List.le_of_mem_argmin (f := fun r => |r - i.spreadsheetRow|) hr' hmem,
      fun r' hr' hle =>
        List.index_of_argmin (f := fun r => |r - i.spreadsheetRow|) hmem hr' hle⟩
  · intro hn hr
    simp [getIndicatorRow, hn, hr]
  · intro hn
    simp [getIndicatorRow, hn]
  · intro pre post hact hnone
    rw [activeResolvedRows, List.filterMap_append, List.filterMap_cons]
    simp [hact, hnone, activeResolvedRows]

/-- Witness for C7: the duplicate-label scenario — "Customer Satisfaction"
at rows 36 and 61 with fallback row 36 — run through the theorem. -/
theorem getIndicatorRow_spec_witness :
    ∃ b, getIndicatorRow (fun l => if l = "customer satisfaction" then [36, 61] else [])
        ⟨"CS", "Customer Satisfaction", 36, true⟩ = some b ∧ b ∈ [(36 : ℤ), 61] ∧
      (∀ r' ∈ [(36 : ℤ), 61], |b - (36 : ℤ)| ≤ |r' - (36 : ℤ)|) ∧
      (∀ r' ∈ [(36 : ℤ), 61], |r' - (36 : ℤ)| ≤ |b - (36 : ℤ)| →
        [(36 : ℤ), 61].indexOf b ≤ [(36 : ℤ), 61].indexOf r') :=
  (getIndicatorRow_spec (fun l => if l = "customer satisfaction" then [36, 61] else [])
      ⟨"CS", "Customer Satisfaction", 36, true⟩).2.1 (by decide) 36 61 [] (by decide)

/-- C4 counterexample: a label-column read returning no rows at all is NOT a
discovery failure — `discoverRows` returns the empty mapping without error
and `DiscoverLayout` succeeds, silently producing a snapshot with no label
rows. -/
theorem DiscoverLayout_empty_label_column_succeeds :
    (DiscoverLayout (.ok [[CellVal.str "January Target"]]) (.ok [])).isOk = true ∧
    discoverRows (.ok ([] : List (List CellVal))) = .ok (fun _ => ([] : List ℤ)) :=
  ⟨rfl, rfl⟩

/-- C4 (amended): layout discovery fails with a propagated error when the
header-row read returns no cells (empty response or empty first row) or when
either underlying fetch fails; an empty label-column read is not a failure —
`discoverRows` returns the empty row mapping and `DiscoverLayout` succeeds
with an empty-rows snapshot. -/
theorem discovery_failure_propagation (cfetch : Except String (List (List CellVal)))
    (e : String) (rest : List (List CellVal)) :
    discoverColumns (.ok []) = .error "header row is empty" ∧
    discoverColumns (.ok ([] :: rest)) = .error "header row is empty" ∧
    discoverColumns (.error e) = .error ("failed to fetch header row: " ++ e) ∧
    DiscoverLayout (.ok []) cfetch
      = .error ("column discovery failed: " ++ "header row is empty") ∧
    DiscoverLayout (.error e) cfetch
      = .error ("column discovery failed: " ++ ("failed to fetch header row: " ++ e)) ∧
    discoverRows (.error e) = .error ("failed to fetch column C: " ++ e) ∧
    discoverRows (.ok []) = .ok (fun _ => []) ∧
    DiscoverLayout (.ok [[CellVal.str "January Target"]]) (.ok [])
      = .ok ⟨scanHeader [CellVal.str "January Target"], fun _ => []⟩ :=
  ⟨rfl, rfl, rfl, rfl, rfl, rfl, rfl, rfl⟩

theorem entryField_setEntry_ne (t t' : ColType) (e : MonthEntry) (c : ℕ)
    (h : t ≠ t') : entryField t (setEntry e t' c) = entryField t e := by
  cases t <;> cases t' <;> simp_all [entryField, setEntry]

theorem headerFold_preserves_some (cells : List (ℕ × CellVal)) :
    ∀ acc : ℕ → Option MonthEntry, ∀ m : ℕ, acc m ≠ none →
      (cells.foldl headerStep acc) m ≠ none := by
  induction cells with
  | nil => intro acc m h; simpa using h
  | cons c cs ih =>
    intro acc m h
    rw [List.foldl_cons]
    apply ih
    unfold headerStep
    cases hm : cellMatch c.2 with
    | none => exact h
    | some mt =>
      obtain ⟨m', t⟩ := mt
      dsimp only
      rcases eq_or_ne m m' with rfl | hne
      · simp [Function.update_same]
      · rw [Function.update_noteq hne]
        exact h

theorem headerFold_none_of_no_match (cells : List (ℕ × CellVal)) :
    ∀ acc : ℕ → Option MonthEntry, ∀ m : ℕ, acc m = none →
      (∀ p ∈ cells, ∀ t, cellMatch p.2 ≠ some (m, t)) →
      (cells.foldl headerStep acc) m = none := by
  induction cells with
  | nil => intro acc m h _; simpa using h
  | cons c cs ih =>
    intro acc m h hno
    rw [List.foldl_cons]
    apply ih _ m ?_ (fun p hp => hno p (List.mem_cons_of_mem _ hp))
    unfold headerStep
    cases hm : cellMatch c.2 with
    | none => exact h
    | some mt =>
      obtain ⟨m', t⟩ := mt
      have hne : m ≠ m' := by
        intro heq
        exact hno c (List.mem_cons_self _ _) t (heq ▸ hm)
      dsimp only
      rw [Function.update_noteq hne]
      exact h

theorem headerFold_some_of_match (cells : List (ℕ × CellVal)) :
    ∀ acc : ℕ → Option MonthEntry, ∀ m : ℕ,
      (∃ p ∈ cells, ∃ t, cellMatch p.2 = some (m, t)) →
      (cells.foldl headerStep acc) m ≠ none := by
  induction cells with
  | nil =>
    rintro acc m ⟨p, hp, _⟩
    simp at hp
  | cons c cs ih =>
    rintro acc m ⟨p, hp, t, hm⟩
    rw [List.foldl_cons]
    rcases List.mem_cons.mp hp with rfl | hmem
    · apply headerFold_preserves_some
      simp [headerStep, hm]
    · exact ih _ m ⟨p, hmem, t, hm⟩

theorem headerFold_field_zero (cells : List (ℕ × CellVal)) :
    ∀ acc : ℕ → Option MonthEntry, ∀ m : ℕ, ∀ t : ColType,
      (∀ e, acc m = some e → entryField t e = 0) →
      (∀ p ∈ cells, cellMatch p.2 ≠ some (m, t)) →
      ∀ e, (cells.foldl headerStep acc) m = some e → entryField t e = 0 := by
  induction cells with
  | nil =>
    intro acc m t hacc _ e he
    exact hacc e (by simpa using he)
  | cons c cs ih =>
    intro acc m t hacc hno
    rw [List.foldl_cons]
    apply ih _ m t ?_ (fun p hp => hno p (List.mem_cons_of_mem _ hp))
    intro e he
    unfold headerStep at he
    cases hm : cellMatch c.2 with
    | none =>
      rw [hm] at he
      exact hacc e he
    | some mt =>
      obtain ⟨m', t'⟩ := mt
      rw [hm] at he
      dsimp only at he
      rcases eq_or_ne m m' with rfl | hne
      · rw [Function.update_same] at he
        have ht' : t ≠ t' := by
          intro heq
          exact hno c (List.mem_cons_self _ _) (heq ▸ hm)
        rw [← Option.some.inj he, entryField_setEntry_ne t t' _ c.1 ht']
        cases hb : acc m with
        | none => cases t <;> simp [hb, entryField, MonthEntry.zero]
        | some e0 => exact hacc e0 hb
      · rw [Function.update_noteq hne] at he
        exact hacc e he

/-- C10: a month appears in the discovered column map as soon as one of its
header patterns matches some header cell; any column type of that month
whose pattern never matched keeps index `0` (column A) instead of being
marked absent, so a month with a partial header set still resolves all four
column positions — e.g. a header row with only "January Target" and
"% January Performance" yields entry `(1, 0, 2, 0)` for January. -/
theorem scanHeader_partial_month_defaults (row : List CellVal) (m : ℕ) (t : ColType) :
    ((scanHeader row) m ≠ none ↔ ∃ p ∈ row.enum, ∃ t', cellMatch p.2 = some (m, t')) ∧
    ((∀ p ∈ row.enum, cellMatch p.2 ≠ some (m, t)) →
      ∀ e, (scanHeader row) m = some e → entryField t e = 0) ∧
    scanHeader [CellVal.str "Leading Indicators", CellVal.str "January Target",
        CellVal.str "% January Performance"] 1 = some ⟨1, 0, 2, 0⟩ := by
  refine ⟨⟨?_, ?_⟩, ?_, by rfl⟩
  · intro hne
    by_contra hno
    push_neg at hno
    exact hne (headerFold_none_of_no_match _ _ m rfl hno)
  · rintro ⟨p, hp, t', hm⟩
    exact headerFold_some_of_match _ _ m ⟨p, hp, t', hm⟩
  · intro hno
    exact headerFold_field_zero _ _ m t (fun e h => by simp at h) hno

/-- Witness for C10: a header row containing only "January Target" leaves
January's perf slot at `0`. -/
theorem scanHeader_partial_month_defaults_witness :
    entryField ColType.perf ⟨1, 0, 0, 0⟩ = 0 :=
  (scanHeader_partial_month_defaults [CellVal.str "x", CellVal.str "January Target"] 1
      ColType.perf).2.1 (by decide) ⟨1, 0, 0, 0⟩ (by rfl)

/-- Lock-ownership invariant of the cache model: a caller holding the write
lock (double-checking or discovering) is the registered writer. -/
def writerInv (s : CacheState) : Prop :=
  ∀ t : ℕ, (s.pcs t = .wlocked ∨ s.pcs t = .disc) → s.writer = some t

theorem cacheReach_writerInv (s : CacheState) (hr : CacheReach s) : writerInv s := by
  induction hr with
  | init =>
    intro t h
    rcases h with h | h <;> simp [cacheInit] at h
  | step hr hst ih =>
    cases hst with
    | tick => exact fun t h => ih t h
    | rlock t0 hpc0 hw =>
      intro t h
      simp only [Function.update_apply] at h
      split_ifs at h with heq
      · rcases h with h | h <;> simp at h
      · exact ih t h
    | fastRet t0 hpc0 hfr =>
      intro t h
      simp only [Function.update_apply] at h
      split_ifs at h with heq
      · rcases h with h | h <;> simp at h
      · exact ih t h
    | slowPath t0 hpc0 hfr =>
      intro t h
      simp only [Function.update_apply] at h
      split_ifs at h with heq
      · rcases h with h | h <;> simp at h
      · exact ih t h
    | wlock t0 hpc0 hw hrd =>
      intro t h
      simp only [Function.update_apply] at h
      split_ifs at h with heq
      · rw [heq]
      · have h1 := ih t h
        rw [hw] at h1
        simp at h1
    | recheckFresh t0 hpc0 hfr =>
      intro t h
      simp only [Function.update_apply] at h
      split_ifs at h with heq
      · rcases h with h | h <;> simp at h
      · have h1 := ih t h
        have h2 := ih t0 (Or.inl hpc0)
        exact absurd (Option.some.inj (h2.symm.trans h1)).symm heq
    | startDisc t0 hpc0 hfr =>
      intro t h
      simp only [Function.update_apply] at h
      split_ifs at h with heq
      · rw [heq]
        exact ih t0 (Or.inl hpc0)
      · exact ih t h
    | finishDisc t0 v hpc0 =>
      intro t h
      simp only [Function.update_apply] at h
      split_ifs at h with heq
      · rcases h with h | h <;> simp at h
      · have h1 := ih t h
        have h2 := ih t0 (Or.inr hpc0)
        exact absurd (Option.some.inj (h2.symm.trans h1)).symm heq
    | failDisc t0 hpc0 =>
      intro t h
      simp only [Function.update_apply] at h
      split_ifs at h with heq
      · rcases h with h | h <;> simp at h
      · have h1 := ih t h
        have h2 := ih t0 (Or.inr hpc0)
        exact absurd (Option.some.inj (h2.symm.trans h1)).symm heq
    | invalidate hw hrd => exact fun t h => ih t h

/-- C5: in every reachable cache state at most one caller is inside the
discovery round-trip (it owns the write lock, so two discovering callers
would both have to be the registered writer); and a caller that holds the
read lock while the cache is fresh can only step to `done`, returning the
cached snapshot unchanged and issuing no external discovery call. -/
theorem GetLayout_cache_spec (s s' : CacheState) (t u : ℕ) (hr : CacheReach s) :
    (s.pcs t = .disc → s.pcs u = .disc → t = u) ∧
    (CacheStep s s' → s.pcs t = .rlocked → lfresh s = true → s'.pcs t ≠ .rlocked →
      s'.pcs t = .done ∧ s'.res t = s.layout ∧ s'.calls = s.calls) := by
  constructor
  · intro ht hu
    have h1 := cacheReach_writerInv s hr t (Or.inr ht)
    have h2 := cacheReach_writerInv s hr u (Or.inr hu)
    exact Option.some.inj (h1.symm.trans h2)
  · intro hst hpc hfresh hne
    cases hst with
    | tick => exact absurd hpc hne
    | rlock t0 hpc0 hw =>
      rcases eq_or_ne t t0 with rfl | hneq
      · rw [hpc] at hpc0
        exact absurd hpc0 (by decide)
      · exact absurd ((Function.update_noteq hneq _ _).trans hpc) hne
    | fastRet t0 hpc0 hfr =>
      rcases eq_or_ne t t0 with rfl | hneq
      · refine ⟨?_, ?_, rfl⟩ <;> simp [Function.update_same]
      · exact absurd ((Function.update_noteq hneq _ _).trans hpc) hne
    | slowPath t0 hpc0 hfr =>
      rcases eq_or_ne t t0 with rfl | hneq
      · exact absurd (hfresh.symm.trans hfr) (by decide)
      · exact absurd ((Function.update_noteq hneq _ _).trans hpc) hne
    | wlock t0 hpc0 hw hrd =>
      rcases eq_or_ne t t0 with rfl | hneq
      · rw [hpc] at hpc0
        exact absurd hpc0 (by decide)
      · exact absurd ((Function.update_noteq hneq _ _).trans hpc) hne
    | recheckFresh t0 hpc0 hfr =>
      rcases eq_or_ne t t0 with rfl | hneq
      · rw [hpc] at hpc0
        exact absurd hpc0 (by decide)
      · exact absurd ((Function.update_noteq hneq _ _).trans hpc) hne
    | startDisc t0 hpc0 hfr =>
      rcases eq_or_ne t t0 with rfl | hneq
      · rw [hpc] at hpc0
        exact absurd hpc0 (by decide)
      · exact absurd ((Function.update_noteq hneq _ _).trans hpc) hne
    | finishDisc t0 v hpc0 =>
      rcases eq_or_ne t t0 with rfl | hneq
      · rw [hpc] at hpc0
        exact absurd hpc0 (by decide)
      · exact absurd ((Function.update_noteq hneq _ _).trans hpc) hne
    | failDisc t0 hpc0 =>
      rcases eq_or_ne t t0 with rfl | hneq
      · rw [hpc] at hpc0
        exact absurd hpc0 (by decide)
      · exact absurd ((Function.update_noteq hneq _ _).trans hpc) hne
    | invalidate hw hrd => exact absurd hpc hne

theorem wCacheReach4 : CacheReach wCache4 :=
  (((CacheReach.init.step (CacheStep.rlock cacheInit 0 rfl rfl)).step
      (CacheStep.slowPath wCache1 0 rfl rfl)).step
        (CacheStep.wlock wCache2 0 rfl rfl rfl)).step
    (CacheStep.startDisc wCache3 0 rfl rfl)

theorem wCacheReach6 : CacheReach wCache6 :=
  (wCacheReach4.step (CacheStep.finishDisc wCache4 0 42 rfl)).step
    (CacheStep.rlock wCache5 1 rfl rfl)

/-- Witness for C5: in the concrete execution, the single discovering caller
at step 4 is unique, and caller 1's fresh-cache read at step 7 returns the
cached snapshot 42 without a new discovery call. -/
theorem GetLayout_cache_spec_witness :
    (0 = 0) ∧
    (wCache7.pcs 1 = CachePC.done ∧ wCache7.res 1 = wCache6.layout ∧
      wCache7.calls = wCache6.calls) :=
  ⟨(GetLayout_cache_spec wCache4 wCache4 0 0 wCacheReach4).1 rfl rfl,
   (GetLayout_cache_spec wCache6 wCache7 1 0 wCacheReach6).2
     (CacheStep.fastRet wCache6 1 rfl rfl) rfl rfl (by decide)⟩

end Dashboard
